import Mathlib

/-!
Verification of the TravelPlanner app component
(`src/src/services/gemini.service.ts`, `AppComponent`): a shallow embedding
of its currency parsing, budget aggregation and generation workflow, with
theorems checking the specification's claims.

Modelling conventions:
* JavaScript numbers are modelled as `ℚ`; a value that may be `NaN` is an
  `Option ℚ` (`none` = NaN); a nullable number is wrapped in a further
  `Option` (outer `none` = `null`).
* `parseFloat` is modelled on the strings it is actually applied to
  (digit/dot/sign strings produced by the normalisation step); it returns
  `none` for NaN.
* The `/[A-Z]{2,3}/i` regex match is modelled by a left-to-right scan that
  greedily takes up to three consecutive ASCII letters at the first
  position where at least two are available.
-/

/-- Numeric value of a list of decimal digit characters, most significant
first, as `foldl` accumulation (`digitsVal ['1','2'] = 12`). -/
def digitsVal (ds : List Char) : ℕ :=
  ds.foldl (fun a c => 10 * a + (c.toNat - 48)) 0

/-- Value of a fractional digit string: `fracVal ['5','6'] = 56/100`. -/
def fracVal (ds : List Char) : ℚ :=
  (digitsVal ds : ℚ) / 10 ^ ds.length

/-- Model of JavaScript `parseFloat` on the character lists it is applied to
in this program (no leading whitespace, no exponent — the inputs are built
from digits, dots and commas only): optional sign, leading digit run,
optional dot plus digit run; `none` models the NaN result when no digit is
consumed. -/
def parseFloatQ (cs : List Char) : Option ℚ :=
  let signed : Bool × List Char :=
    match cs with
    | [] => (false, [])
    | c :: t => if c = '-' then (true, t) else if c = '+' then (false, t) else (false, c :: t)
  let ds := signed.2.takeWhile Char.isDigit
  let rest := signed.2.dropWhile Char.isDigit
  let fs : List Char :=
    match rest with
    | [] => []
    | c :: t => if c = '.' then t.takeWhile Char.isDigit else []
  if ds = [] ∧ fs = [] then none
  else some ((if signed.1 then -1 else 1) * ((digitsVal ds : ℚ) + fracVal fs))

/-- Model of `currencyString.match(/[A-Z]{2,3}/i)`: scan left to right for
the first position holding at least two consecutive ASCII letters, and
return those letters, greedily extended to a third. -/
def findCode : List Char → Option (List Char)
  | [] => none
  | [_] => none
  | c1 :: c2 :: rest2 =>
    if c1.isAlpha ∧ c2.isAlpha then
      match rest2 with
      | c3 :: _ => if c3.isAlpha then some [c1, c2, c3] else some [c1, c2]
      | [] => some [c1, c2]
    else findCode (c2 :: rest2)

/-- Characters kept by `replace(/[^\d,\.]/g, '')`: digits, comma, period. -/
def keepChar (c : Char) : Bool :=
  c.isDigit || c = ',' || c = '.'

/-- Embedding of `AppComponent.parseCurrency`: extract a 2–3 letter code
(defaulting to `"IDR"`), strip everything but digits/commas/periods, delete
periods, turn commas into periods, `parseFloat` with `|| 0` fallback. -/
def parseCurrency (s : String) : ℚ × String :=
  if s = "" then (0, "IDR")
  else
    let code : List Char :=
      match findCode s.data with
      | some m => m.map Char.toUpper
      | none => ['I', 'D', 'R']
    let cleaned := s.data.filter keepChar
    let normalized := (cleaned.filter (fun c => c ≠ '.')).map
      (fun c => if c = ',' then '.' else c)
    let amount : ℚ :=
      match parseFloatQ normalized with
      | none => 0
      | some q => q
    (amount, String.mk code)

/-- Value intended by a well-formed cost string, following the spec's
words: periods are thousands separators (deleted), the comma is the decimal
separator, so the value is the integer digits followed by the fractional
digits scaled down. Spec-side definition for the refinement claim. -/
def intendedValue (intDigits fracDigits : List Char) : ℚ :=
  (digitsVal intDigits : ℚ) + fracVal fracDigits

/-! ## JSON values and a model of `JSON.parse` -/

/-- A JavaScript exception as observed by the component's `catch` block:
whether `e instanceof SyntaxError` holds, and `e.message`. -/
structure JsError where
  isSyntaxError : Bool
  message : String
deriving Repr, DecidableEq

/-- `e.message.includes('JSON')`. -/
def containsJSON (m : String) : Bool :=
  decide (['J', 'S', 'O', 'N'] <:+: m.data)

/-- Parsed JSON values. -/
inductive Json where
  | null
  | bool (b : Bool)
  | num (q : ℚ)
  | str (s : String)
  | arr (elems : List Json)
  | obj (fields : List (String × Json))
deriving Repr

/-- Skip JSON whitespace (space, tab, newline, carriage return). -/
def skipWs : List Char → List Char
  | [] => []
  | c :: cs =>
    if c = ' ' || c = '\t' || c = '\n' || c = '\r' then skipWs cs else c :: cs

/-- Hexadecimal digit test for `\uXXXX` escapes. -/
def isHexDigitChar (c : Char) : Bool :=
  c.isDigit || ('a' ≤ c && c ≤ 'f') || ('A' ≤ c && c ≤ 'F')

/-- Value of a hexadecimal digit. -/
def hexVal (c : Char) : ℕ :=
  if c.isDigit then c.toNat - 48
  else if 'a' ≤ c && c ≤ 'f' then c.toNat - 87
  else c.toNat - 55

/-- Parse the body of a JSON string after the opening quote, handling the
JSON escape sequences; rejects raw control characters as `JSON.parse`
does. -/
def parseJsonStringBody : List Char → List Char → Option (String × List Char)
  | [], _ => none
  | '"' :: rest, acc => some (String.mk acc.reverse, rest)
  | '\\' :: e :: rest, acc =>
    match e with
    | '"' => parseJsonStringBody rest ('"' :: acc)
    | '\\' => parseJsonStringBody rest ('\\' :: acc)
    | '/' => parseJsonStringBody rest ('/' :: acc)
    | 'b' => parseJsonStringBody rest (Char.ofNat 8 :: acc)
    | 'f' => parseJsonStringBody rest (Char.ofNat 12 :: acc)
    | 'n' => parseJsonStringBody rest ('\n' :: acc)
    | 'r' => parseJsonStringBody rest (Char.ofNat 13 :: acc)
    | 't' => parseJsonStringBody rest ('\t' :: acc)
    | 'u' =>
      match rest with
      | h1 :: h2 :: h3 :: h4 :: rest2 =>
        if isHexDigitChar h1 && isHexDigitChar h2 && isHexDigitChar h3 &&
            isHexDigitChar h4 then
          parseJsonStringBody rest2
            (Char.ofNat (((hexVal h1 * 16 + hexVal h2) * 16 + hexVal h3) * 16
              + hexVal h4) :: acc)
        else none
      | _ => none
    | _ => none
  | c :: rest, acc =>
    if c.toNat < 32 then none else parseJsonStringBody rest (c :: acc)

/-- Parse a JSON number (sign, integer part with the leading-zero rule,
optional fraction, optional exponent) into a rational. -/
def parseJsonNumber (cs : List Char) : Option (ℚ × List Char) :=
  let signed : Bool × List Char :=
    match cs with
    | '-' :: t => (true, t)
    | _ => (false, cs)
  let intRes : Option (ℕ × List Char) :=
    match signed.2 with
    | '0' :: rest =>
      match rest with
      | c :: _ => if c.isDigit then none else some (0, rest)
      | [] => some (0, [])
    | other =>
      let ds := other.takeWhile Char.isDigit
      if ds = [] then none else some (digitsVal ds, other.dropWhile Char.isDigit)
  match intRes with
  | none => none
  | some (ip, rest1) =>
    let fracRes : Option (ℚ × List Char) :=
      match rest1 with
      | '.' :: t =>
        let fs := t.takeWhile Char.isDigit
        if fs = [] then none else some (fracVal fs, t.dropWhile Char.isDigit)
      | _ => some (0, rest1)
    match fracRes with
    | none => none
    | some (fp, rest2) =>
      let expRes : Option (ℤ × List Char) :=
        match rest2 with
        | c :: t =>
          if c = 'e' || c = 'E' then
            let signed2 : Bool × List Char :=
              match t with
              | '-' :: u => (true, u)
              | '+' :: u => (false, u)
              | _ => (false, t)
            let es := signed2.2.takeWhile Char.isDigit
            if es = [] then none
            else
              some ((if signed2.1 then -(digitsVal es : ℤ) else (digitsVal es : ℤ)),
                signed2.2.dropWhile Char.isDigit)
          else some (0, rest2)
        | [] => some (0, [])
      match expRes with
      | none => none
      | some (ex, rest3) =>
        some ((if signed.1 then -1 else 1) * ((ip : ℚ) + fp) * (10 : ℚ) ^ ex, rest3)

mutual

/-- Parse one JSON value; `fuel` bounds recursion depth. -/
def parseJsonValue (fuel : ℕ) (cs : List Char) : Option (Json × List Char) :=
  match fuel with
  | 0 => none
  | fuel + 1 =>
    match skipWs cs with
    | [] => none
    | c :: rest =>
      if c = 'n' then
        match rest with
        | 'u' :: 'l' :: 'l' :: r => some (.null, r)
        | _ => none
      else if c = 't' then
        match rest with
        | 'r' :: 'u' :: 'e' :: r => some (.bool true, r)
        | _ => none
      else if c = 'f' then
        match rest with
        | 'a' :: 'l' :: 's' :: 'e' :: r => some (.bool false, r)
        | _ => none
      else if c = '"' then
        match parseJsonStringBody rest [] with
        | some (s, r) => some (.str s, r)
        | none => none
      else if c = '[' then
        match skipWs rest with
        | ']' :: r2 => some (.arr [], r2)
        | other => 
          match parseJsonElems fuel other with
          | some (vs, r2) => some (.arr vs, r2)
          | none => none
      else if c = '{' then
        match skipWs rest with
        | '}' :: r2 => some (.obj [], r2)
        | other =>
          match parseJsonFields fuel other with
          | some (fs, r2) => some (.obj fs, r2)
          | none => none
      else
        match parseJsonNumber (c :: rest) with
        | some (q, r) => some (.num q, r)
        | none => none

/-- Parse a non-empty comma-separated list of values ending with `]`. -/
def parseJsonElems (fuel : ℕ) (cs : List Char) : Option (List Json × List Char) :=
  match fuel with
  | 0 => none
  | fuel + 1 =>
    match parseJsonValue fuel cs with
    | none => none
    | some (v, r) =>
      match skipWs r with
      | ',' :: r2 =>
        match parseJsonElems fuel r2 with
        | some (vs, r3) => some (v :: vs, r3)
        | none => none
      | ']' :: r2 => some ([v], r2)
      | _ => none

/-- Parse a non-empty comma-separated list of `"key": value` pairs ending
with `}`. -/
def parseJsonFields (fuel : ℕ) (cs : List Char) :
    Option (List (String × Json) × List Char) :=
  match fuel with
  | 0 => none
  | fuel + 1 =>
    match skipWs cs with
    | '"' :: rest =>
      match parseJsonStringBody rest [] with
      | some (k, r) =>
        match skipWs r with
        | ':' :: r2 =>
          match parseJsonValue fuel r2 with
          | some (v, r3) =>
            match skipWs r3 with
            | ',' :: r4 =>
              match parseJsonFields fuel r4 with
              | some (fs, r5) => some ((k, v) :: fs, r5)
              | none => none
            | '}' :: r4 => some ([(k, v)], r4)
            | _ => none
          | none => none
        | _ => none
      | none => none
    | _ => none

end

/-- The `SyntaxError` thrown by `JSON.parse`; its message names JSON (as in
the host engines, e.g. `"Unexpected token in JSON at position …"`), which
the component's `catch` block relies on via `.includes('JSON')`. -/
def jsonSyntaxError : JsError :=
  ⟨true, "Unexpected token in JSON"⟩

/-- Model of `JSON.parse`: parse one value, require only whitespace to
remain, and fail with a `SyntaxError` otherwise. -/
def jsonParse (s : String) : Except JsError Json :=
  match parseJsonValue (2 * s.data.length + 2) s.data with
  | some (v, r) =>
    match skipWs r with
    | [] => .ok v
    | _ => .error jsonSyntaxError
  | none => .error jsonSyntaxError

/-! ## Data model and component state -/

/-- An itinerary activity. `actualCost` models the JavaScript
`number | null` field including NaN: outer `none` = `null`, `some none` =
`NaN`, `some (some q)` = the number `q`. -/
structure Activity where
  name : String
  time : String
  cost : String
  actualCost : Option (Option ℚ)
  checkPriceLink : String
deriving Repr, DecidableEq

/-- One day of the itinerary. -/
structure DailyPlan where
  day : ℚ
  theme : String
  activities : List Activity
deriving Repr, DecidableEq

/-- The component's signal state (`AppComponent`'s fields). -/
structure AppState where
  destination : String
  duration : Option ℚ
  interests : String
  totalBudgetInput : String
  totalBudget : Option ℚ
  itinerary : Option (List DailyPlan)
  isLoading : Bool
  error : Option String
  totalEstimatedCost : ℚ
  totalActualCost : ℚ
  averageDailyBudgetRemaining : Option ℚ
deriving Repr, DecidableEq

/-- One loop iteration of `calculateSummary`'s inner `for`: add the parsed
estimated amount, and add `actualCost` only when it is neither `null` nor
`NaN`. -/
def activityStep (acc : ℚ × ℚ) (a : Activity) : ℚ × ℚ :=
  (acc.1 + (parseCurrency a.cost).1,
    match a.actualCost with
    | some (some q) => acc.2 + q
    | _ => acc.2)

/-- Embedding of `AppComponent.calculateSummary`: walk the itinerary (if
any) accumulating estimated and actual totals, store them, then set the
average only when the budget is non-null and the duration is non-null and
positive. -/
def calculateSummary (s : AppState) : AppState :=
  let totals : ℚ × ℚ :=
    match s.itinerary with
    | none => (0, 0)
    | some days => days.foldl (fun acc dayPlan => dayPlan.activities.foldl activityStep acc) (0, 0)
  let s1 := { s with totalEstimatedCost := totals.1, totalActualCost := totals.2 }
  match s.totalBudget, s.duration with
  | some b, some d =>
    if 0 < d then { s1 with averageDailyBudgetRemaining := some ((b - totals.2) / d) }
    else { s1 with averageDailyBudgetRemaining := none }
  | _, _ => { s1 with averageDailyBudgetRemaining := none }

/-- Embedding of `AppComponent.onTotalBudgetInputChange`: parse the budget
input, store its amount, recompute the summary. -/
def onTotalBudgetInputChange (s : AppState) : AppState :=
  calculateSummary { s with totalBudget := some (parseCurrency s.totalBudgetInput).1 }

/-! ## Decoding the parsed JSON into the itinerary -/

/-- Object field access; for duplicate keys `JSON.parse` keeps the last
occurrence. -/
def getField (fields : List (String × Json)) (k : String) : Option Json :=
  (fields.reverse.find? (fun f => f.1 = k)).map (·.2)

/-- View a field as the string the typed itinerary stores (the interface
declares these fields as strings; a missing or non-string value is not
inspected by any computation modelled here). -/
def asString : Option Json → String
  | some (.str s) => s
  | _ => ""

/-- View a field as a number (`day`). -/
def asNum : Option Json → ℚ
  | some (.num q) => q
  | _ => 0

/-- The raw `actualCost` value an activity object carries straight out of
`JSON.parse`, before initialization overrides it. -/
def asActualCost : Option Json → Option (Option ℚ)
  | some (.num q) => some (some q)
  | some .null => none
  | some _ => some none
  | none => none

/-- The `TypeError` raised when `.map` is applied to a non-array (or
`.activities` is accessed on `null`): not a `SyntaxError`, and its message
does not mention JSON. -/
def typeError : JsError :=
  ⟨false, "map is not a function"⟩

/-- An activity object as produced by `JSON.parse` (field extraction;
object spread never throws). -/
def decodeActivity (j : Json) : Activity :=
  match j with
  | .obj fs =>
    { name := asString (getField fs "name")
      time := asString (getField fs "time")
      cost := asString (getField fs "cost")
      actualCost := asActualCost (getField fs "actualCost")
      checkPriceLink := asString (getField fs "checkPriceLink") }
  | _ => { name := "", time := "", cost := "", actualCost := none, checkPriceLink := "" }

/-- A day-plan object: `dayPlan.activities.map` throws a `TypeError`
unless `activities` is an array. -/
def decodeDayPlan (j : Json) : Except JsError DailyPlan :=
  match j with
  | .obj fs =>
    match getField fs "activities" with
    | some (.arr acts) =>
      .ok { day := asNum (getField fs "day"), theme := asString (getField fs "theme"),
            activities := acts.map decodeActivity }
    | _ => .error typeError
  | _ => .error typeError

/-- Decode the day objects left to right, aborting at the first element
whose decoding throws (as the JavaScript map does). -/
def decodeDayPlans : List Json → Except JsError (List DailyPlan)
  | [] => .ok []
  | j :: rest =>
    match decodeDayPlan j with
    | .error e => .error e
    | .ok p =>
      match decodeDayPlans rest with
      | .error e => .error e
      | .ok ps => .ok (p :: ps)

/-- `parsedItinerary.map(...)`: throws a `TypeError` unless the top-level
value is an array; aborts at the first failing element. -/
def decodeItinerary (j : Json) : Except JsError (List DailyPlan) :=
  match j with
  | .arr days => decodeDayPlans days
  | _ => .error typeError

/-- Embedding of the initialization map (`{...dayPlan, activities:
dayPlan.activities.map(activity => ({...activity, actualCost: null}))}`):
every activity's `actualCost` is overridden with `null`. -/
def initializeItinerary (plans : List DailyPlan) : List DailyPlan :=
  plans.map fun p =>
    { p with activities := p.activities.map fun a => { a with actualCost := none } }

/-! ## Generation workflow -/

/-- The validation error message set when destination or duration is
missing. -/
def validationMsg : String :=
  "Harap isi Tujuan Wisata dan Durasi (Hari)."

/-- The distinct malformed-response error message. -/
def malformedMsg : String :=
  "Gagal memproses itinerary: Model mungkin mengembalikan format yang tidak lengkap atau tidak valid. Coba lagi atau sesuaikan prompt Anda."

/-- The generic error message: `e.message` when non-empty (truthy), else
the fallback phrase. -/
def genericMsg (m : String) : String :=
  "Gagal membuat itinerary: " ++ (if m = "" then "Terjadi kesalahan tidak terduga." else m)

/-- The component's `catch` block: a `SyntaxError` whose message mentions
JSON gets the malformed-response message, anything else the generic one. -/
def catchMessage (e : JsError) : String :=
  if e.isSyntaxError && containsJSON e.message then malformedMsg else genericMsg e.message

/-- JavaScript truthiness of a nullable number (`!this.duration()` guard):
`null` and `0` are falsy. -/
def jsTruthyNum : Option ℚ → Bool
  | none => false
  | some q => decide (q ≠ 0)

/-- Model of JavaScript `String.prototype.trim` as applied to
`response.text`: drop leading and trailing whitespace. -/
def jsTrim (s : String) : String :=
  String.mk (((s.data.dropWhile Char.isWhitespace).reverse.dropWhile
    Char.isWhitespace).reverse)

/-- Embedding of `AppComponent.generateItinerary`. The pending network
call's outcome is passed in as `resp` (`.error e` = the call threw,
`.ok text` = `response.text`). Returns the final state and whether the
Generation Client was invoked. -/
def generateItinerary (s : AppState) (resp : Except JsError String) :
    AppState × Bool :=
  if s.destination = "" ∨ jsTruthyNum s.duration = false then
    ({ s with error := some validationMsg }, false)
  else
    let s1 := { s with
      isLoading := true
      error := none
      itinerary := none
      totalEstimatedCost := 0
      totalActualCost := 0
      averageDailyBudgetRemaining := none }
    match resp with
    | .error e => ({ s1 with error := some (catchMessage e), isLoading := false }, true)
    | .ok text =>
      match jsonParse (jsTrim text) with
      | .error pe => ({ s1 with error := some (catchMessage pe), isLoading := false }, true)
      | .ok j =>
        match decodeItinerary j with
        | .error de => ({ s1 with error := some (catchMessage de), isLoading := false }, true)
        | .ok parsed =>
          let s2 := calculateSummary { s1 with itinerary := some (initializeItinerary parsed) }
          ({ s2 with isLoading := false }, true)

/-! ## Spec-side definitions (for the refinement-style claims) -/

/-- Spec-side total estimated cost: the sum over all activities of all
days of the parsed amount of each activity's cost string; 0 for a missing
itinerary. -/
def sumEstimated : Option (List DailyPlan) → ℚ
  | none => 0
  | some days =>
    (days.map (fun p => (p.activities.map (fun a => (parseCurrency a.cost).1)).sum)).sum

/-- Spec-side total actual cost: the sum of every `actualCost` that is
neither `null` nor `NaN`, the others being skipped. -/
def sumActual : Option (List DailyPlan) → ℚ
  | none => 0
  | some days =>
    (days.map (fun p => (p.activities.filterMap (fun a =>
      match a.actualCost with
      | some (some q) => some q
      | _ => none)).sum)).sum

/-- The three displayed budget-summary figures of a state. -/
def summaryFigures (s : AppState) : ℚ × ℚ × Option ℚ :=
  (s.totalEstimatedCost, s.totalActualCost, s.averageDailyBudgetRemaining)

/-- The number part of a well-formed cost string: leading digit group,
further period-separated digit groups, and an optional comma-separated
fractional digit group. -/
def numPartOf (d1 : List Char) (gs : List (List Char)) (fr : Option (List Char)) :
    List Char :=
  d1 ++ (gs.map (fun g => '.' :: g)).flatten ++
    (match fr with
     | some f => ',' :: f
     | none => [])

/-! ## Concrete states and inputs used by the witnesses -/

/-- A state that passes validation: the spec's end-to-end example inputs. -/
def sKyoto : AppState :=
  { destination := "Kyoto", duration := some 3, interests := "temples",
    totalBudgetInput := "", totalBudget := none, itinerary := none,
    isLoading := false, error := none, totalEstimatedCost := 0,
    totalActualCost := 0, averageDailyBudgetRemaining := none }

/-- A state with a non-empty destination and a non-null but zero
duration. -/
def sZeroDuration : AppState :=
  { sKyoto with destination := "Bali", duration := some 0 }

/-- A state with a known budget, a positive duration and one activity with
a recorded actual cost. -/
def sBudget : AppState :=
  { sKyoto with
    totalBudget := some 100
    duration := some 2
    itinerary := some [
      { day := 1, theme := "t",
        activities := [
          { name := "a", time := "9", cost := "50 IDR",
            actualCost := some (some 30), checkPriceLink := "u" }] }] }

/-- `sBudget` with unrelated fields changed but the same itinerary, budget
and duration. -/
def sBudgetVariant : AppState :=
  { sBudget with
    destination := "elsewhere"
    error := some "stale"
    totalEstimatedCost := 99
    totalActualCost := 77
    isLoading := true }

/-- A state with an edited (empty) budget input and no duration. -/
def sNoDuration : AppState :=
  { sKyoto with duration := none, totalBudgetInput := "" }

/-- A mocked generation response: three valid day objects, one of whose
activities carries an `actualCost` field in the JSON. -/
def json3 : String :=
  "[\x7b\"day\":1,\"theme\":\"a\",\"activities\":[\x7b\"name\":\"n1\",\"time\":\"t\",\"cost\":\"100 IDR\",\"checkPriceLink\":\"u\",\"actualCost\":5\x7d]\x7d,\x7b\"day\":2,\"theme\":\"b\",\"activities\":[]\x7d,\x7b\"day\":3,\"theme\":\"c\",\"activities\":[\x7b\"name\":\"n2\",\"time\":\"t\",\"cost\":\"2.500 IDR\",\"checkPriceLink\":\"u\"\x7d]\x7d]"

/-- The itinerary the workflow builds from `json3`. -/
def witnessDays : List DailyPlan :=
  [{ day := 1, theme := "a",
     activities := [{ name := "n1", time := "t", cost := "100 IDR",
                      actualCost := none, checkPriceLink := "u" }] },
   { day := 2, theme := "b", activities := [] },
   { day := 3, theme := "c",
     activities := [{ name := "n2", time := "t", cost := "2.500 IDR",
                      actualCost := none, checkPriceLink := "u" }] }]

/-! ## Helper lemmas: character classes -/

theorem isDigit_not_isAlpha (c : Char) (h : c.isDigit = true) : c.isAlpha = false := by
  simp [Char.isDigit] at h
  simp [Char.isAlpha, Char.isUpper, Char.isLower]
  simp [UInt32.le_def, UInt32.lt_def, BitVec.le_def, BitVec.lt_def] at *
  omega

theorem isAlpha_not_isDigit (c : Char) (h : c.isAlpha = true) : c.isDigit = false := by
  cases hd : c.isDigit with
  | false => rfl
  | true => rw [isDigit_not_isAlpha c hd] at h; exact absurd h (by simp)

theorem isDigit_ne (c d : Char) (h : c.isDigit = true) (hd : d.isDigit = false) : c ≠ d := by
  intro he
  rw [he, hd] at h
  exact absurd h (by simp)

theorem isDigit_keepChar (c : Char) (h : c.isDigit = true) : keepChar c = true := by
  simp [keepChar, h]

theorem isAlpha_keepChar (c : Char) (h : c.isAlpha = true) : keepChar c = false := by
  have hd := isAlpha_not_isDigit c h
  simp [keepChar, hd]
  constructor
  · intro he; rw [he] at h; exact absurd h (by decide)
  · intro he; rw [he] at h; exact absurd h (by decide)

theorem isWhitespace_cases (c : Char) (h : c.isWhitespace = true) :
    c = ' ' ∨ c = '\t' ∨ c = '\r' ∨ c = '\n' := by
  simp [Char.isWhitespace] at h
  tauto

theorem isWhitespace_not_isAlpha (c : Char) (h : c.isWhitespace = true) :
    c.isAlpha = false := by
  rcases isWhitespace_cases c h with h' | h' | h' | h' <;> rw [h'] <;> decide

theorem isWhitespace_keepChar (c : Char) (h : c.isWhitespace = true) :
    keepChar c = false := by
  rcases isWhitespace_cases c h with h' | h' | h' | h' <;> rw [h'] <;> decide

/-! ## Helper lemmas: lists -/

theorem takeWhile_append_all {α : Type} (p : α → Bool) (l1 l2 : List α)
    (h : ∀ c ∈ l1, p c = true) :
    (l1 ++ l2).takeWhile p = l1 ++ l2.takeWhile p := by
  induction l1 with
  | nil => simp
  | cons a t ih =>
    simp [List.takeWhile_cons, h a (by simp)]
    exact ih (fun c hc => h c (by simp [hc]))

theorem dropWhile_append_all {α : Type} (p : α → Bool) (l1 l2 : List α)
    (h : ∀ c ∈ l1, p c = true) :
    (l1 ++ l2).dropWhile p = l2.dropWhile p := by
  induction l1 with
  | nil => simp
  | cons a t ih =>
    simp [List.dropWhile_cons, h a (by simp)]
    exact ih (fun c hc => h c (by simp [hc]))

theorem takeWhile_all {α : Type} (p : α → Bool) (l : List α)
    (h : ∀ c ∈ l, p c = true) : l.takeWhile p = l := by
  have := takeWhile_append_all p l [] h
  simpa using this

/-! ## Helper lemmas: the currency-code scan -/

theorem findCode_none (cs : List Char) (h : ∀ c ∈ cs, c.isAlpha = false) :
    findCode cs = none := by
  induction cs with
  | nil => rfl
  | cons c1 rest ih =>
    cases rest with
    | nil => rfl
    | cons c2 r2 =>
      have h1 : c1.isAlpha = false := h c1 (by simp)
      have hrest := ih (fun c hc => h c (by simp [hc]))
      rw [findCode.eq_def]
      simp [h1, hrest]

theorem findCode_skip (pre cs : List Char) (hcs : cs ≠ [])
    (h : ∀ c ∈ pre, c.isAlpha = false) :
    findCode (pre ++ cs) = findCode cs := by
  induction pre with
  | nil => simp
  | cons p t ih =>
    have hp : p.isAlpha = false := h p (by simp)
    have hne : t ++ cs ≠ [] := by
      intro he
      rcases List.append_eq_nil.mp he with ⟨_, h2⟩
      exact hcs h2
    obtain ⟨c2, r2, he⟩ := List.exists_cons_of_ne_nil hne
    calc findCode (p :: t ++ cs) = findCode (p :: c2 :: r2) := by
          rw [List.cons_append, he]
      _ = findCode (c2 :: r2) := by rw [findCode.eq_def]; simp [hp]
      _ = findCode (t ++ cs) := by rw [he]
      _ = findCode cs := ih (fun c hc => h c (by simp [hc]))

theorem findCode_all_alpha (code : List Char) (h : ∀ c ∈ code, c.isAlpha = true)
    (h2 : 2 ≤ code.length) (h3 : code.length ≤ 3) : findCode code = some code := by
  rcases code with _ | ⟨a, _ | ⟨b, _ | ⟨c, _ | ⟨d, t⟩⟩⟩⟩
  · simp at h2
  · simp at h2
  · simp [findCode, h a (by simp), h b (by simp)]
  · simp [findCode, h a (by simp), h b (by simp), h c (by simp)]
  · simp at h3

/-! ## Helper lemmas: parseFloat on digit strings -/

theorem parseFloatQ_int (D : List Char) (hne : D ≠ [])
    (hD : ∀ c ∈ D, c.isDigit = true) :
    parseFloatQ D = some ((digitsVal D : ℚ) + fracVal []) := by
  obtain ⟨c, D', rfl⟩ := List.exists_cons_of_ne_nil hne
  have hc : c.isDigit = true := hD c (by simp)
  have hnd : c ≠ '-' := isDigit_ne c '-' hc (by decide)
  have hnp : c ≠ '+' := isDigit_ne c '+' hc (by decide)
  have htake : (c :: D').takeWhile Char.isDigit = c :: D' :=
    takeWhile_all _ _ hD
  have hdrop : (c :: D').dropWhile Char.isDigit = [] := by
    have := dropWhile_append_all Char.isDigit (c :: D') [] hD
    simpa using this
  simp [parseFloatQ, hnd, hnp, htake, hdrop]

theorem parseFloatQ_intFrac (D f : List Char) (hne : D ≠ [])
    (hD : ∀ c ∈ D, c.isDigit = true) (hf : ∀ c ∈ f, c.isDigit = true) :
    parseFloatQ (D ++ '.' :: f) = some ((digitsVal D : ℚ) + fracVal f) := by
  obtain ⟨c, D', rfl⟩ := List.exists_cons_of_ne_nil hne
  have hc : c.isDigit = true := hD c (by simp)
  have hnd : c ≠ '-' := isDigit_ne c '-' hc (by decide)
  have hnp : c ≠ '+' := isDigit_ne c '+' hc (by decide)
  have htake : (c :: (D' ++ '.' :: f)).takeWhile Char.isDigit = c :: D' := by
    rw [show c :: (D' ++ '.' :: f) = (c :: D') ++ '.' :: f from rfl]
    rw [takeWhile_append_all Char.isDigit (c :: D') ('.' :: f) hD]
    simp [List.takeWhile_cons]
  have hdrop : (c :: (D' ++ '.' :: f)).dropWhile Char.isDigit = '.' :: f := by
    rw [show c :: (D' ++ '.' :: f) = (c :: D') ++ '.' :: f from rfl]
    rw [dropWhile_append_all Char.isDigit (c :: D') ('.' :: f) hD]
    simp [List.dropWhile_cons]
  have htakef : f.takeWhile Char.isDigit = f := takeWhile_all _ _ hf
  simp [parseFloatQ, hnd, hnp, htake, hdrop, htakef]

/-! ## Helper lemmas: parseCurrency on a character list -/

theorem parseCurrency_mk (l : List Char) (hne : l ≠ []) :
    parseCurrency (String.mk l) =
      ((match parseFloatQ (((l.filter keepChar).filter (fun c => c ≠ '.')).map
          (fun c => if c = ',' then '.' else c)) with
        | none => (0 : ℚ)
        | some q => q),
       String.mk (match findCode l with
        | some m => m.map Char.toUpper
        | none => ['I', 'D', 'R'])) := by
  have hs : (String.mk l = "") = False := by
    simp only [eq_iff_iff, iff_false]
    intro h
    exact hne (by simpa using congrArg String.data h)
  rw [parseCurrency]
  rw [if_neg (by simp [hs])]

theorem mem_numPartOf (d1 : List Char) (gs : List (List Char))
    (fr : Option (List Char))
    (hd1 : ∀ c ∈ d1, c.isDigit = true)
    (hgs : ∀ g ∈ gs, ∀ c ∈ g, c.isDigit = true)
    (hfr : ∀ c ∈ fr.getD [], c.isDigit = true) :
    ∀ c ∈ numPartOf d1 gs fr, c.isDigit = true ∨ c = ',' ∨ c = '.' := by
  intro c hc
  rcases List.mem_append.mp hc with h | h
  · rcases List.mem_append.mp h with h | h
    · exact Or.inl (hd1 c h)
    · rcases List.mem_flatten.mp h with ⟨l, hl, hcl⟩
      rcases List.mem_map.mp hl with ⟨g, hg, rfl⟩
      rcases List.mem_cons.mp hcl with rfl | hcg
      · exact Or.inr (Or.inr rfl)
      · exact Or.inl (hgs g hg c hcg)
  · rcases fr with _ | f
    · simp at h
    · rcases List.mem_cons.mp h with rfl | hcf
      · exact Or.inr (Or.inl rfl)
      · exact Or.inl (hfr c (by simpa using hcf))

theorem filter_digits_ne_dot (l : List Char) (h : ∀ c ∈ l, c.isDigit = true) :
    l.filter (fun c => c ≠ '.') = l := by
  refine List.filter_eq_self.mpr (fun a ha => ?_)
  have : a ≠ '.' := isDigit_ne a '.' (h a ha) (by decide)
  simp [this]

theorem map_digits_comma (l : List Char) (h : ∀ c ∈ l, c.isDigit = true) :
    l.map (fun c => if c = ',' then '.' else c) = l := by
  have : ∀ a ∈ l, (fun c => if c = ',' then '.' else c) a = id a := by
    intro a ha
    have : a ≠ ',' := isDigit_ne a ',' (h a ha) (by decide)
    simp [this]
  rw [List.map_congr_left this, List.map_id]

theorem filter_dot_groups (gs : List (List Char))
    (hgs : ∀ g ∈ gs, ∀ c ∈ g, c.isDigit = true) :
    ((gs.map (fun g => '.' :: g)).flatten).filter (fun c => c ≠ '.') =
      gs.flatten := by
  induction gs with
  | nil => simp
  | cons g t ih =>
    simp only [List.map_cons, List.flatten_cons, List.filter_append,
      List.filter_cons]
    rw [if_neg (by simp)]
    rw [filter_digits_ne_dot g (hgs g (by simp))]
    rw [ih (fun g' hg' => hgs g' (by simp [hg']))]

theorem normalized_numPart (d1 : List Char) (gs : List (List Char))
    (fr : Option (List Char))
    (hd1 : ∀ c ∈ d1, c.isDigit = true)
    (hgs : ∀ g ∈ gs, ∀ c ∈ g, c.isDigit = true)
    (hfr : ∀ c ∈ fr.getD [], c.isDigit = true) :
    ((numPartOf d1 gs fr).filter (fun c => c ≠ '.')).map
        (fun c => if c = ',' then '.' else c) =
      (d1 ++ gs.flatten) ++
        (match fr with
         | some f => '.' :: f
         | none => []) := by
  have hflatdig : ∀ c ∈ gs.flatten, c.isDigit = true := by
    intro c hc
    rcases List.mem_flatten.mp hc with ⟨g, hg, hcg⟩
    exact hgs g hg c hcg
  rw [numPartOf.eq_def, List.filter_append, List.filter_append]
  rw [filter_digits_ne_dot d1 hd1, filter_dot_groups gs hgs]
  rcases fr with _ | f
  · simp only [List.filter_nil, List.append_nil, List.map_append]
    rw [map_digits_comma d1 hd1, map_digits_comma gs.flatten hflatdig]
  · have hf : ∀ c ∈ f, c.isDigit = true := by simpa using hfr
    rw [show List.filter (fun c => c ≠ '.') (',' :: f) =
        ',' :: List.filter (fun c => c ≠ '.') f from by
      rw [List.filter_cons, if_pos (by simp)]]
    rw [filter_digits_ne_dot f hf]
    simp only [List.map_append, List.map_cons]
    rw [map_digits_comma d1 hd1, map_digits_comma gs.flatten hflatdig,
      map_digits_comma f hf]
    simp

/-- C2: for every well-formed cost string of the shape
number-with-period-groups, optional comma-fraction, space, 2–3 letter code,
the currency parser returns exactly the intended value (periods read as
thousands separators, the comma as decimal separator) and the code
uppercased. Exact rational equality implies the claim's floating-point
tolerance. -/
theorem parseCurrency_wellFormed (d1 : List Char) (gs : List (List Char))
    (fr : Option (List Char)) (code : List Char)
    (hd1ne : d1 ≠ [])
    (hd1 : ∀ c ∈ d1, c.isDigit = true)
    (hgs : ∀ g ∈ gs, ∀ c ∈ g, c.isDigit = true)
    (hfr : ∀ c ∈ fr.getD [], c.isDigit = true)
    (hcode : ∀ c ∈ code, c.isAlpha = true)
    (hlen2 : 2 ≤ code.length) (hlen3 : code.length ≤ 3) :
    parseCurrency (String.mk (numPartOf d1 gs fr ++ ' ' :: code)) =
      (intendedValue (d1 ++ gs.flatten) (fr.getD []),
       String.mk (code.map Char.toUpper)) := by
  have hmem := mem_numPartOf d1 gs fr hd1 hgs hfr
  have hcodene : code ≠ [] := by
    intro h
    rw [h] at hlen2
    simp at hlen2
  have hne : numPartOf d1 gs fr ++ ' ' :: code ≠ [] := by
    intro h
    rcases List.append_eq_nil.mp h with ⟨-, h2⟩
    exact List.cons_ne_nil _ _ h2
  rw [parseCurrency_mk _ hne]
  have hfind : findCode (numPartOf d1 gs fr ++ ' ' :: code) = some code := by
    rw [show numPartOf d1 gs fr ++ ' ' :: code =
        (numPartOf d1 gs fr ++ [' ']) ++ code from by simp]
    rw [findCode_skip (numPartOf d1 gs fr ++ [' ']) code hcodene ?_]
    · exact findCode_all_alpha code hcode hlen2 hlen3
    · intro c hc
      rcases List.mem_append.mp hc with h | h
      · rcases hmem c h with h' | h' | h'
        · exact isDigit_not_isAlpha c h'
        · rw [h']; decide
        · rw [h']; decide
      · rw [show c = ' ' from by simpa using h]; decide
  have hclean : (numPartOf d1 gs fr ++ ' ' :: code).filter keepChar =
      numPartOf d1 gs fr := by
    rw [List.filter_append]
    have h1 : (numPartOf d1 gs fr).filter keepChar = numPartOf d1 gs fr := by
      refine List.filter_eq_self.mpr (fun a ha => ?_)
      rcases hmem a ha with h' | h' | h'
      · exact isDigit_keepChar a h'
      · rw [h']; decide
      · rw [h']; decide
    have h2 : (' ' :: code).filter keepChar = [] := by
      refine List.filter_eq_nil_iff.mpr (fun a ha => ?_)
      rcases List.mem_cons.mp ha with rfl | ha'
      · decide
      · simp [isAlpha_keepChar a (hcode a ha')]
    rw [h1, h2, List.append_nil]
  rw [hclean, hfind]
  rw [normalized_numPart d1 gs fr hd1 hgs hfr]
  have hDdig : ∀ c ∈ d1 ++ gs.flatten, c.isDigit = true := by
    intro c hc
    rcases List.mem_append.mp hc with h | h
    · exact hd1 c h
    · rcases List.mem_flatten.mp h with ⟨g, hg, hcg⟩
      exact hgs g hg c hcg
  have hDne : d1 ++ gs.flatten ≠ [] := by
    intro h
    exact hd1ne (List.append_eq_nil.mp h).1
  rcases fr with _ | f
  · rw [show ((d1 ++ gs.flatten) ++
        (match (none : Option (List Char)) with
         | some f => '.' :: f
         | none => [])) = d1 ++ gs.flatten from by simp]
    rw [parseFloatQ_int (d1 ++ gs.flatten) hDne hDdig]
    rfl
  · rw [show ((d1 ++ gs.flatten) ++
        (match (some f : Option (List Char)) with
         | some f => '.' :: f
         | none => [])) = (d1 ++ gs.flatten) ++ '.' :: f from rfl]
    have hf : ∀ c ∈ f, c.isDigit = true := by simpa using hfr
    rw [parseFloatQ_intFrac (d1 ++ gs.flatten) f hDne hDdig hf]
    rfl


theorem fracVal_nonneg (ds : List Char) : 0 ≤ fracVal ds := by
  unfold fracVal
  positivity

theorem parseFloatQ_nonneg (cs : List Char)
    (h : ∀ c ∈ cs, c.isDigit = true ∨ c = '.') :
    ∀ q, parseFloatQ cs = some q → 0 ≤ q := by
  intro q hq
  rcases cs with _ | ⟨c, t⟩
  · simp [parseFloatQ] at hq
  · have hc : c ≠ '-' := by
      rcases h c (by simp) with hd | hd
      · exact isDigit_ne c '-' hd (by decide)
      · rw [hd]; decide
    have hp : c ≠ '+' := by
      rcases h c (by simp) with hd | hd
      · exact isDigit_ne c '+' hd (by decide)
      · rw [hd]; decide
    simp [parseFloatQ, hc, hp] at hq
    obtain ⟨-, hq2⟩ := hq
    rw [← hq2]
    have h1 : (0 : ℚ) ≤ (digitsVal ((c :: t).takeWhile Char.isDigit) : ℚ) :=
      Nat.cast_nonneg _
    have h2 := fracVal_nonneg (match (c :: t).dropWhile Char.isDigit with
      | [] => []
      | c :: t => if c = '.' then t.takeWhile Char.isDigit else [])
    linarith

theorem mem_normalized (l : List Char) :
    ∀ c ∈ ((l.filter keepChar).filter (fun c => c ≠ '.')).map
      (fun c => if c = ',' then '.' else c), c.isDigit = true ∨ c = '.' := by
  intro c hc
  rcases List.mem_map.mp hc with ⟨a, ha, rfl⟩
  rcases List.mem_filter.mp ha with ⟨ha1, ha2⟩
  rcases List.mem_filter.mp ha1 with ⟨-, hk⟩
  by_cases hcm : a = ','
  · simp [hcm]
  · simp only [if_neg hcm]
    have hk' : (a.isDigit = true ∨ a = ',') ∨ a = '.' := by
      simpa [keepChar] using hk
    rcases hk' with (h | h) | h
    · exact Or.inl h
    · exact absurd h hcm
    · exact Or.inr h

/-! ## Claim theorems: currency parser -/

/-- C9: for every input string, the amount returned by the currency parser
is non-negative (and, being a rational in this model, never NaN — the
parse-failure case is replaced by 0 and minus signs are stripped before
numeric parsing). -/
theorem parseCurrency_amount_nonneg (s : String) : 0 ≤ (parseCurrency s).1 := by
  rcases s with ⟨l⟩
  rcases eq_or_ne l [] with rfl | hne
  · rw [show String.mk [] = "" from rfl]
    simp [parseCurrency]
  · rw [parseCurrency_mk l hne]
    rcases hqq : parseFloatQ (((l.filter keepChar).filter (fun c => c ≠ '.')).map
        (fun c => if c = ',' then '.' else c)) with _ | q
    · simp [hqq]
    · simp only [hqq]
      exact parseFloatQ_nonneg _ (mem_normalized l) q hqq

/-- C7: parsing an empty or whitespace-only cost string yields amount 0 and
the default currency code "IDR". -/
theorem parseCurrency_whitespace (s : String)
    (h : ∀ c ∈ s.data, c.isWhitespace = true) :
    parseCurrency s = (0, "IDR") := by
  rcases s with ⟨l⟩
  rcases eq_or_ne l [] with rfl | hne
  · rfl
  · rw [parseCurrency_mk l hne]
    have hfc : findCode l = none :=
      findCode_none l (fun c hc => isWhitespace_not_isAlpha c (h c hc))
    have hcl : l.filter keepChar = [] :=
      List.filter_eq_nil_iff.mpr
        (fun c hc => by simp [isWhitespace_keepChar c (h c hc)])
    rw [hfc, hcl]
    rfl

/-- C7 witness: the claim instantiated at a concrete whitespace string. -/
theorem parseCurrency_whitespace_witness :
    (∀ c ∈ (" \t ").data, c.isWhitespace = true) ∧
      parseCurrency " \t " = (0, "IDR") :=
  ⟨by decide, parseCurrency_whitespace " \t " (by decide)⟩

/-- C2 witness: the claim instantiated at "1.234,56 eur", which parses to
the intended 1234.56 with code "EUR". -/
theorem parseCurrency_wellFormed_witness :
    parseCurrency "1.234,56 eur" =
      (intendedValue ['1', '2', '3', '4'] ['5', '6'], "EUR") ∧
    intendedValue ['1', '2', '3', '4'] ['5', '6'] = 30864 / 25 := by
  constructor
  · have h := parseCurrency_wellFormed ['1'] [['2', '3', '4']]
      (some ['5', '6']) ['e', 'u', 'r'] (by decide) (by decide) (by decide)
      (by decide) (by decide) (by decide) (by decide)
    have e1 : String.mk (numPartOf ['1'] [['2', '3', '4']] (some ['5', '6']) ++
        ' ' :: ['e', 'u', 'r']) = "1.234,56 eur" := by decide
    have e2 : (↑(['1'] ++ [['2', '3', '4']].flatten) : List Char) =
        ['1', '2', '3', '4'] := by decide
    rw [e1] at h
    rw [h]
    constructor
  · rw [show intendedValue ['1', '2', '3', '4'] ['5', '6'] =
      (digitsVal ['1', '2', '3', '4'] : ℚ) +
        (digitsVal ['5', '6'] : ℚ) / 10 ^ 2 from rfl]
    rw [show digitsVal ['1', '2', '3', '4'] = 1234 from by decide]
    rw [show digitsVal ['5', '6'] = 56 from by decide]
    norm_num

/-! ## Helper lemmas: the aggregation folds -/

theorem foldl_activityStep (acts : List Activity) (acc : ℚ × ℚ) :
    acts.foldl activityStep acc =
      (acc.1 + (acts.map (fun a => (parseCurrency a.cost).1)).sum,
       acc.2 + (acts.filterMap (fun a =>
         match a.actualCost with
         | some (some q) => some q
         | _ => none)).sum) := by
  induction acts generalizing acc with
  | nil => simp
  | cons a t ih =>
    rw [List.foldl_cons, ih]
    rcases ha : a.actualCost with _ | ⟨_ | q⟩
    · simp [activityStep, ha, List.filterMap_cons, add_assoc]
    · simp [activityStep, ha, List.filterMap_cons, add_assoc]
    · simp [activityStep, ha, List.filterMap_cons, add_assoc]

theorem foldl_days (days : List DailyPlan) (acc : ℚ × ℚ) :
    days.foldl (fun acc dayPlan => dayPlan.activities.foldl activityStep acc) acc =
      (acc.1 + (days.map (fun p =>
         (p.activities.map (fun a => (parseCurrency a.cost).1)).sum)).sum,
       acc.2 + (days.map (fun p =>
         (p.activities.filterMap (fun a =>
           match a.actualCost with
           | some (some q) => some q
           | _ => none)).sum)).sum) := by
  induction days generalizing acc with
  | nil => simp
  | cons p t ih =>
    rw [List.foldl_cons, foldl_activityStep, ih]
    simp [add_assoc]

/-- The state after the budget aggregator, fully resolved: the two totals
are the spec-side sums, and the average is set exactly when budget and a
positive duration are present. -/
theorem calculateSummary_eq (s : AppState) :
    calculateSummary s = { s with
      totalEstimatedCost := sumEstimated s.itinerary
      totalActualCost := sumActual s.itinerary
      averageDailyBudgetRemaining :=
        match s.totalBudget, s.duration with
        | some b, some d =>
          if 0 < d then some ((b - sumActual s.itinerary) / d) else none
        | _, _ => none } := by
  have htot : (match s.itinerary with
      | none => ((0 : ℚ), (0 : ℚ))
      | some days => days.foldl
          (fun acc dayPlan => dayPlan.activities.foldl activityStep acc) (0, 0)) =
      (sumEstimated s.itinerary, sumActual s.itinerary) := by
    rcases s.itinerary with _ | days
    · rfl
    · simp [foldl_days, sumEstimated, sumActual]
  rw [calculateSummary, htot]
  rcases s.totalBudget with _ | b <;> rcases s.duration with _ | d <;> simp
  split <;> rfl

/-! ## Claim theorems: budget aggregator -/

/-- C3: after the aggregator runs, total-estimated is the sum of parsed
amounts over all activities of all days, and total-actual is the sum of the
non-null non-NaN actual costs (null/NaN skipped); both totals are 0 for an
absent or empty itinerary. -/
theorem calculateSummary_totals (s : AppState) :
    ((calculateSummary s).totalEstimatedCost = sumEstimated s.itinerary ∧
     (calculateSummary s).totalActualCost = sumActual s.itinerary) ∧
    (s.itinerary = none ∨ s.itinerary = some [] →
      (calculateSummary s).totalEstimatedCost = 0 ∧
      (calculateSummary s).totalActualCost = 0) := by
  have h1 : (calculateSummary s).totalEstimatedCost = sumEstimated s.itinerary := by
    rw [calculateSummary_eq]
  have h2 : (calculateSummary s).totalActualCost = sumActual s.itinerary := by
    rw [calculateSummary_eq]
  refine ⟨⟨h1, h2⟩, fun h => ?_⟩
  rcases h with h | h <;> rw [h1, h2, h] <;> constructor <;> rfl

/-- C3 witness: the empty-itinerary part instantiated at a concrete
state. -/
theorem calculateSummary_totals_witness :
    sKyoto.itinerary = none ∧
      (calculateSummary sKyoto).totalEstimatedCost = 0 ∧
      (calculateSummary sKyoto).totalActualCost = 0 :=
  ⟨rfl, (calculateSummary_totals sKyoto).2 (Or.inl rfl)⟩

/-- C1: the average-remaining-per-day is null exactly when the budget is
null, the duration is null, or the duration is non-positive; otherwise it
equals (budget − totalActual) / duration with totalActual the aggregator's
total actual cost. -/
theorem calculateSummary_average (s : AppState) :
    ((calculateSummary s).averageDailyBudgetRemaining = none ↔
      s.totalBudget = none ∨ s.duration = none ∨
        ∃ d, s.duration = some d ∧ d ≤ 0) ∧
    (∀ b d, s.totalBudget = some b → s.duration = some d → 0 < d →
      (calculateSummary s).averageDailyBudgetRemaining =
        some ((b - (calculateSummary s).totalActualCost) / d)) := by
  have hact : (calculateSummary s).totalActualCost = sumActual s.itinerary := by
    rw [calculateSummary_eq]
  have havg : (calculateSummary s).averageDailyBudgetRemaining =
      match s.totalBudget, s.duration with
      | some b, some d =>
        if 0 < d then some ((b - sumActual s.itinerary) / d) else none
      | _, _ => none := by
    rw [calculateSummary_eq]
  constructor
  · rw [havg]
    rcases s.totalBudget with _ | b <;> rcases s.duration with _ | d <;> simp
  · intro b d hb hd hdp
    rw [havg, hb, hd, hact]
    simp [hdp]

/-- C1 witness: budget 100, duration 2, one activity with actual cost 30
gives average (100 − 30) / 2 = 35. -/
theorem calculateSummary_average_witness :
    (calculateSummary sBudget).averageDailyBudgetRemaining = some 35 := by
  have h := (calculateSummary_average sBudget).2 100 2 rfl rfl (by norm_num)
  rw [h]
  rw [show (calculateSummary sBudget).totalActualCost = 30 from by
    norm_num [calculateSummary, sBudget, sKyoto, activityStep]]
  norm_num

/-- C8: the budget summary is a pure function of (itinerary, budget,
duration), and running the aggregator twice in a row yields the same
figures as running it once. -/
theorem calculateSummary_pure_idempotent (s t : AppState) :
    (s.itinerary = t.itinerary → s.totalBudget = t.totalBudget →
      s.duration = t.duration →
      summaryFigures (calculateSummary s) = summaryFigures (calculateSummary t)) ∧
    summaryFigures (calculateSummary (calculateSummary s)) =
      summaryFigures (calculateSummary s) := by
  have figures : ∀ u : AppState, summaryFigures (calculateSummary u) =
      (sumEstimated u.itinerary, sumActual u.itinerary,
       match u.totalBudget, u.duration with
       | some b, some d =>
         if 0 < d then some ((b - sumActual u.itinerary) / d) else none
       | _, _ => none) := by
    intro u
    rw [calculateSummary_eq]
    rfl
  have hi : (calculateSummary s).itinerary = s.itinerary := by
    rw [calculateSummary_eq]
  have hb : (calculateSummary s).totalBudget = s.totalBudget := by
    rw [calculateSummary_eq]
  have hd : (calculateSummary s).duration = s.duration := by
    rw [calculateSummary_eq]
  constructor
  · intro h1 h2 h3
    rw [figures s, figures t, h1, h2, h3]
  · rw [figures (calculateSummary s), figures s, hi, hb, hd]

/-- C8 witness: two states agreeing on (itinerary, budget, duration) but
differing elsewhere produce the same figures, and a repeated run changes
nothing. -/
theorem calculateSummary_pure_idempotent_witness :
    summaryFigures (calculateSummary sBudget) =
      summaryFigures (calculateSummary sBudgetVariant) ∧
    summaryFigures (calculateSummary (calculateSummary sBudget)) =
      summaryFigures (calculateSummary sBudget) :=
  ⟨(calculateSummary_pure_idempotent sBudget sBudgetVariant).1 rfl rfl rfl,
   (calculateSummary_pure_idempotent sBudget sBudget).2⟩

/-- C10: after any budget-input edit the stored total budget is a non-null
number (0 for the empty input), so a null average can only come from a
missing or non-positive duration. -/
theorem onTotalBudgetInputChange_budget (s : AppState) :
    (onTotalBudgetInputChange s).totalBudget =
      some ((parseCurrency s.totalBudgetInput).1) ∧
    (s.totalBudgetInput = "" → (onTotalBudgetInputChange s).totalBudget = some 0) ∧
    ((onTotalBudgetInputChange s).averageDailyBudgetRemaining = none →
      s.duration = none ∨ ∃ d, s.duration = some d ∧ d ≤ 0) := by
  have hb : (onTotalBudgetInputChange s).totalBudget =
      some ((parseCurrency s.totalBudgetInput).1) := by
    rw [onTotalBudgetInputChange, calculateSummary_eq]
  refine ⟨hb, fun h => ?_, fun h => ?_⟩
  · rw [hb, h]
    rfl
  · rw [onTotalBudgetInputChange, calculateSummary_eq] at h
    rcases hd : s.duration with _ | d
    · exact Or.inl rfl
    · refine Or.inr ⟨d, rfl, ?_⟩
      simp only [hd] at h
      by_cases hdp : 0 < d
      · rw [if_pos hdp] at h
        exact absurd h (by simp)
      · exact not_lt.mp hdp

/-- C10 witness: an empty budget input with no duration stores budget 0 and
the null average is due to the missing duration. -/
theorem onTotalBudgetInputChange_budget_witness :
    (sNoDuration.totalBudgetInput = "" ∧
      (onTotalBudgetInputChange sNoDuration).totalBudget = some 0) ∧
    ((onTotalBudgetInputChange sNoDuration).averageDailyBudgetRemaining = none ∧
      (sNoDuration.duration = none ∨
        ∃ d, sNoDuration.duration = some d ∧ d ≤ 0)) :=
  ⟨⟨rfl, (onTotalBudgetInputChange_budget sNoDuration).2.1 rfl⟩,
   ⟨rfl, (onTotalBudgetInputChange_budget sNoDuration).2.2 rfl⟩⟩

/-! ## Helper lemmas: generation workflow -/

theorem jsonParse_error_eq (s : String) (pe : JsError)
    (h : jsonParse s = .error pe) : pe = jsonSyntaxError := by
  rw [jsonParse] at h
  split at h
  · split at h
    · exact absurd h (by simp)
    · exact (Except.error.inj h).symm
  · exact (Except.error.inj h).symm

theorem catchMessage_syntaxError : catchMessage jsonSyntaxError = malformedMsg := rfl

theorem catchMessage_other (e : JsError) (h : e.isSyntaxError = false) :
    catchMessage e = genericMsg e.message := by
  simp [catchMessage, h]

theorem decodeDayPlan_error (j : Json) (de : JsError)
    (h : decodeDayPlan j = .error de) : de = typeError := by
  rcases j with _ | _ | _ | _ | _ | fs
  all_goals first
    | exact (Except.error.inj h).symm
    | (rw [decodeDayPlan] at h
       split at h
       · exact absurd h (by simp)
       · exact (Except.error.inj h).symm)

theorem decodeDayPlans_error (days : List Json) (de : JsError)
    (h : decodeDayPlans days = .error de) : de = typeError := by
  induction days with
  | nil => exact absurd h (by simp [decodeDayPlans])
  | cons j rest ih =>
    rw [decodeDayPlans] at h
    split at h
    · rename_i e he
      exact decodeDayPlan_error j de (by rw [he]; exact congrArg Except.error (Except.error.inj h))
    · split at h
      · rename_i e he
        exact ih (by rw [he]; exact congrArg Except.error (Except.error.inj h))
      · exact absurd h (by simp)

theorem decodeItinerary_error (j : Json) (de : JsError)
    (h : decodeItinerary j = .error de) : de = typeError := by
  rcases j with _ | _ | _ | _ | days | _
  · exact (Except.error.inj h).symm
  · exact (Except.error.inj h).symm
  · exact (Except.error.inj h).symm
  · exact (Except.error.inj h).symm
  · exact decodeDayPlans_error days de h
  · exact (Except.error.inj h).symm

theorem initializeItinerary_actualCost (plans : List DailyPlan) :
    ∀ p ∈ initializeItinerary plans, ∀ a ∈ p.activities, a.actualCost = none := by
  intro p hp a ha
  rcases List.mem_map.mp hp with ⟨p0, hp0, rfl⟩
  rcases List.mem_map.mp ha with ⟨a0, ha0, rfl⟩
  rfl

/-! ## Claim theorems: generation workflow -/

/-- C4 counterexample: a state with a non-empty destination and a non-null
duration (zero) on which the claimed transition does not happen — the
workflow stays in Idle with the validation error and the Generation Client
is not invoked. -/
theorem generateItinerary_zero_duration_counterexample :
    (sZeroDuration.destination ≠ "" ∧ sZeroDuration.duration ≠ none) ∧
    (generateItinerary sZeroDuration (.ok "[]")).2 = false ∧
    (generateItinerary sZeroDuration (.ok "[]")).1.error = some validationMsg :=
  ⟨⟨by decide, by decide⟩, rfl, rfl⟩

/-- C4 (amended): the workflow invokes the Generation Client iff the
destination is non-empty and the duration is truthy (non-null and
non-zero); otherwise it stays in Idle, only reporting the validation
error. -/
theorem generateItinerary_validation (s : AppState)
    (resp : Except JsError String) :
    ((generateItinerary s resp).2 = true ↔
      (s.destination ≠ "" ∧ ∃ d, s.duration = some d ∧ d ≠ 0)) ∧
    ((s.destination = "" ∨ s.duration = none ∨ s.duration = some 0) →
      generateItinerary s resp = ({ s with error := some validationMsg }, false)) := by
  by_cases hcond : s.destination = "" ∨ jsTruthyNum s.duration = false
  · rw [generateItinerary, if_pos hcond]
    constructor
    · simp only [Bool.false_eq_true, false_iff]
      rintro ⟨hdest, d, hd, hdz⟩
      rcases hcond with h | h
      · exact hdest h
      · rw [hd] at h
        simp [jsTruthyNum] at h
        exact hdz h
    · intro _
      rfl
  · push_neg at hcond
    obtain ⟨hdest, hdur⟩ := hcond
    have hdur' : jsTruthyNum s.duration = true := by
      cases h : jsTruthyNum s.duration
      · exact absurd h hdur
      · rfl
    have hguard : ¬(s.destination = "" ∨ jsTruthyNum s.duration = false) := by
      simp [hdest, hdur']
    rw [generateItinerary, if_neg hguard]
    constructor
    · rcases hd : s.duration with _ | d
      · rw [hd] at hdur'
        simp [jsTruthyNum] at hdur'
      · rw [hd] at hdur'
        simp only [jsTruthyNum, decide_eq_true_eq] at hdur'
        rcases resp with e | text
        · simp [hdest, hdur']
        · rcases hjp : jsonParse (jsTrim text) with pe | j
          · simp [hjp, hdest, hdur']
          · rcases hdec : decodeItinerary j with de | parsed
            · simp [hjp, hdec, hdest, hdur']
            · simp [hjp, hdec, hdest, hdur']
    · intro h
      rcases h with h | h | h
      · exact absurd h hdest
      · rw [h] at hdur'
        simp [jsTruthyNum] at hdur'
      · rw [h] at hdur'
        simp [jsTruthyNum] at hdur'

/-- C4 witness: a valid state does invoke the client; the zero-duration
state takes the validation branch. -/
theorem generateItinerary_validation_witness :
    (generateItinerary sKyoto (.ok "[]")).2 = true ∧
    generateItinerary sZeroDuration (.ok "[]") =
      ({ sZeroDuration with error := some validationMsg }, false) :=
  ⟨(generateItinerary_validation sKyoto (.ok "[]")).1.mpr
    ⟨by decide, 3, rfl, by norm_num⟩,
   (generateItinerary_validation sZeroDuration (.ok "[]")).2
    (Or.inr (Or.inr rfl))⟩

/-- C5: past validation, a response text that fails JSON parsing ends with
the distinct malformed-response error and a null itinerary; any other
exception — one thrown by the call that is not a SyntaxError, or the
TypeError thrown while mapping a successfully parsed non-itinerary value —
yields the generic error carrying the underlying message (or the fallback
phrase when empty), also with a null itinerary. -/
theorem generateItinerary_failure (s : AppState) (text : String) (e : JsError)
    (hdest : s.destination ≠ "") (hdur : jsTruthyNum s.duration = true) :
    (∀ pe, jsonParse (jsTrim text) = .error pe →
      (generateItinerary s (.ok text)).1.error = some malformedMsg ∧
      (generateItinerary s (.ok text)).1.itinerary = none) ∧
    (e.isSyntaxError = false →
      (generateItinerary s (.error e)).1.error = some (genericMsg e.message) ∧
      (generateItinerary s (.error e)).1.itinerary = none) ∧
    (∀ j de, jsonParse (jsTrim text) = .ok j → decodeItinerary j = .error de →
      (generateItinerary s (.ok text)).1.error = some (genericMsg de.message) ∧
      (generateItinerary s (.ok text)).1.itinerary = none) := by
  have hguard : ¬(s.destination = "" ∨ jsTruthyNum s.duration = false) := by
    simp [hdest, hdur]
  refine ⟨?_, ?_, ?_⟩
  · intro pe hpe
    have hpe' : pe = jsonSyntaxError := jsonParse_error_eq _ pe hpe
    rw [generateItinerary, if_neg hguard]
    dsimp only
    rw [hpe, hpe']
    exact ⟨congrArg some catchMessage_syntaxError, rfl⟩
  · intro he
    rw [generateItinerary, if_neg hguard]
    exact ⟨congrArg some (catchMessage_other e he), rfl⟩
  · intro j de hj hde
    have hde' : de = typeError := decodeItinerary_error j de hde
    rw [generateItinerary, if_neg hguard]
    dsimp only
    rw [hj]
    dsimp only
    rw [hde]
    dsimp only
    refine ⟨?_, rfl⟩
    rw [catchMessage_other de (by rw [hde']; rfl)]

/-- C5 witness: the claim at the spec's concrete inputs — response text
"\x7bnot json" gives the malformed-response error with itinerary null, and a
non-syntax exception gives the generic message. -/
theorem generateItinerary_failure_witness :
    ((generateItinerary sKyoto (.ok "\x7bnot json")).1.error = some malformedMsg ∧
     (generateItinerary sKyoto (.ok "\x7bnot json")).1.itinerary = none) ∧
    ((generateItinerary sKyoto
        (.error ⟨false, "network down"⟩)).1.error =
          some (genericMsg "network down") ∧
     (generateItinerary sKyoto
        (.error ⟨false, "network down"⟩)).1.itinerary = none) :=
  ⟨(generateItinerary_failure sKyoto "\x7bnot json" ⟨false, "network down"⟩
      (by decide) (by decide)).1 jsonSyntaxError rfl,
   (generateItinerary_failure sKyoto "\x7bnot json" ⟨false, "network down"⟩
      (by decide) (by decide)).2.1 rfl⟩

/-- C6: whenever the workflow ran the Generation Client and produced an
itinerary, every activity's actualCost is null, regardless of any
actualCost value present in the parsed JSON. -/
theorem generateItinerary_actualCost_null (s : AppState)
    (resp : Except JsError String) (days : List DailyPlan)
    (hinv : (generateItinerary s resp).2 = true)
    (hit : (generateItinerary s resp).1.itinerary = some days) :
    ∀ p ∈ days, ∀ a ∈ p.activities, a.actualCost = none := by
  by_cases hcond : s.destination = "" ∨ jsTruthyNum s.duration = false
  · rw [generateItinerary, if_pos hcond] at hinv
    exact absurd hinv (by simp)
  · rw [generateItinerary, if_neg hcond] at hit
    rcases resp with e | text
    · simp at hit
    · dsimp only at hit
      rcases hjp : jsonParse (jsTrim text) with pe | j
      · rw [hjp] at hit
        simp at hit
      · rw [hjp] at hit
        dsimp only at hit
        rcases hdec : decodeItinerary j with de | parsed
        · rw [hdec] at hit
          simp at hit
        · rw [hdec] at hit
          dsimp only at hit
          rw [calculateSummary_eq] at hit
          simp only [Option.some.injEq] at hit
          rw [← hit]
          exact initializeItinerary_actualCost parsed

set_option maxRecDepth 100000 in
/-- C6 witness: the spec's end-to-end example — destination "Kyoto",
duration 3, a mocked response of three day objects including a JSON
actualCost field — produces an itinerary whose activities all have null
actualCost. -/
theorem generateItinerary_actualCost_null_witness :
    (generateItinerary sKyoto (.ok json3)).2 = true ∧
    ∃ days, (generateItinerary sKyoto (.ok json3)).1.itinerary = some days ∧
      days.length = 3 ∧ ∀ p ∈ days, ∀ a ∈ p.activities, a.actualCost = none := by
  have hs : (generateItinerary sKyoto (.ok json3)).1.itinerary.isSome = true := rfl
  obtain ⟨days, hd⟩ := Option.isSome_iff_exists.mp hs
  refine ⟨rfl, days, hd, ?_, generateItinerary_actualCost_null sKyoto (.ok json3) days rfl hd⟩
  have hlen : (generateItinerary sKyoto
      (.ok json3)).1.itinerary.map List.length = some 3 := rfl
  rw [hd] at hlen
  simpa using hlen
